import Mathlib

/-!
# Overlay workspace construction and patching (`pkg/kustomize/kustomize.go`)

A shallow embedding of the Go package `kustomize` of the fleet repository:
`Process`, `modifyKustomize`, `toFilesystem` and `kustomize`.

Modelling conventions.

* Go `string` is `String`, Go `[]byte` is `List UInt8`, Go `error` is an
  `Error` value, `nil` being `none` of `Option Error`.
* A Go slice of objects is a `List`; the `nil` slice is `[]` (the source never
  builds an empty slice that is not `nil`).
* The virtual filesystem is mutated in place by the Go code; here every
  operation passes the filesystem state explicitly and a failing operation
  yields `Except.error`, the state being the one before the call.
* The collaborators the package imports (the in-memory filesystem, the
  payload decoder, the YAML codec, the value conversion, the build engine) are
  the fields of `Env`: the functions of the package are defined for every
  implementation of them.  `Mem.env` is one concrete implementation, used to
  evaluate the functions on concrete inputs.
-/

namespace Fleet

/-! ## Data model -/

/-- Go `[]byte`. -/
abbrev Bytes := List UInt8

/-- Go `error` values (the non-nil ones). -/
structure Error where
  msg : String
deriving DecidableEq, Repr

/-- Go `interface{}` values as they occur in a `map[string]interface{}` read
by `yaml.Unmarshal` or built by `modifyKustomize`: JSON values, plus the
`[]string` the patcher stores under `resources`.  A `float64` is carried by
its decimal text. -/
inductive Value where
  | null : Value
  | bool (b : Bool) : Value
  | number (text : String) : Value
  | string (s : String) : Value
  | stringSlice (xs : List String) : Value
  | slice (xs : List Value) : Value
  | object (kvs : List (String × Value)) : Value

/-- Go `map[string]interface{}`: an association list, the first entry of a
key being the one in force. -/
abbrev Doc := List (String × Value)

/-- Go `data[key]`: the value stored under `key`, the nil interface when the
key is absent. -/
def Doc.get (d : Doc) (key : String) : Value :=
  match d.lookup key with
  | some v => v
  | none => Value.null

/-- Go `data[key] = v`: the entry of `key` is replaced where it stands, or
added when the key is absent. -/
def Doc.set : Doc → String → Value → Doc
  | [], key, v => [(key, v)]
  | (k, w) :: rest, key, v =>
    if k = key then (key, v) :: rest else (k, w) :: Doc.set rest key v

/-- One record of the bundle, `fleet.BundleResource`. -/
structure BundleResource where
  Name : String
  Content : String
  Encoding : String
deriving DecidableEq, Repr

/-- The ordered resource bundle, `manifest.Manifest`. -/
structure Manifest where
  Resources : List BundleResource
deriving DecidableEq, Repr

/-- The options of a call, `fleet.KustomizeOptions`. -/
structure KustomizeOptions where
  Dir : String
  BuildOptions : String
deriving DecidableEq, Repr

/-- One result object, `unstructured.Unstructured`. -/
structure Unstructured where
  Object : Doc

/-- The collaborators of the package, for a filesystem state type `FS`, a
build-options object type `O` (`build.Options`), a result-set type `R`
(`resmap.ResMap`) and a resource type `Rs` (`resource.Resource`). -/
structure Env (FS O R Rs : Type) where
  /-- The empty filesystem, `filesys.MakeEmptyDirInMemory()`. -/
  MakeEmptyDirInMemory : FS
  /-- Method `f.AddFile(name, data)`, the returned node dropped. -/
  AddFile : FS → String → Bytes → Except Error FS
  /-- Method `fs.Exists(path)`. -/
  Exists : FS → String → Bool
  /-- Method `f.ReadFile(path)`. -/
  ReadFile : FS → String → Except Error Bytes
  /-- Method `f.WriteFile(path, data)`. -/
  WriteFile : FS → String → Bytes → Except Error FS
  /-- The payload decoder `content.Decode(content, encoding)`. -/
  Decode : String → String → Except Error Bytes
  /-- The parser `yaml.Unmarshal(bytes, &data)` on an empty map `data`. -/
  Unmarshal : Bytes → Except Error Doc
  /-- The serializer `yaml.Marshal(data)`. -/
  Marshal : Doc → Except Error Bytes
  /-- The conversion `convert.ToString(item)`, applied by `convert.ToStringSlice` to the
  items of a `[]interface{}`. -/
  ToString : Value → String
  /-- The object `var o build.Options` after `build.NewCmdBuildWithOptions("build", _, &o)`
  bound the command's flags to it. -/
  NewCmdBuildWithOptions : O
  /-- Method `cmd.Flags().Parse(args)`: the options object after parsing; the parse
  error is dropped by the caller. -/
  Parse : O → List String → O
  /-- Method `o.Validate(args)`. -/
  Validate : O → List String → Except Error O
  /-- Method `o.RunBuildWithoutEmitter(fs)`. -/
  RunBuildWithoutEmitter : O → FS → Except Error R
  /-- Method `resMap.Resources()`. -/
  Resources : R → List Rs
  /-- Method `m.Map()`. -/
  Map : Rs → Doc

/-! ## Library functions with a fixed meaning -/

/-- Splits a character list at every occurrence of `sep`; `cur` holds the
characters of the piece being read, last first. -/
def splitAux (sep : Char) : List Char → List Char → List (List Char)
  | [], cur => [cur.reverse]
  | c :: cs, cur =>
    if c = sep then cur.reverse :: splitAux sep cs [] else splitAux sep cs (c :: cur)

/-- Go `strings.Split(s, sep)` for a separator of one character: the pieces
of `s` between consecutive separators, `n + 1` pieces for `n` separators. -/
def strings.Split (s : String) (sep : Char) : List String :=
  (splitAux sep s.data []).map String.mk

/-- Go `strings.Join(elems, "/")` on character lists. -/
def joinSlash : List (List Char) → List Char
  | [] => []
  | [x] => x
  | x :: y :: rest => x ++ '/' :: joinSlash (y :: rest)

/-- The element stack of `filepath.Clean`: `out` holds the kept elements,
last first. Empty and `.` elements are dropped, `..` removes the element
before it, and is kept when there is none to remove and the path is not
rooted. -/
def cleanElems (rooted : Bool) : List (List Char) → List (List Char) → List (List Char)
  | [], out => out.reverse
  | e :: es, out =>
    if e = [] ∨ e = ['.'] then cleanElems rooted es out
    else if e = ['.', '.'] then
      match out with
      | [] => if rooted then cleanElems rooted es [] else cleanElems rooted es [e]
      | o :: os =>
        if o = ['.', '.'] then cleanElems rooted es (e :: o :: os)
        else cleanElems rooted es os
    else cleanElems rooted es (e :: out)

/-- Go `filepath.Clean(path)` with separator `/`. -/
def filepath.Clean (path : String) : String :=
  let rooted := path.data.head? = some '/'
  let body := joinSlash (cleanElems rooted (splitAux '/' path.data []) [])
  if rooted then String.mk ('/' :: body)
  else if body = [] then "." else String.mk body

/-- Go `filepath.Join(dir, name)` for two elements: the non-empty ones are
joined by `/` and the result is cleaned; no non-empty element gives `""`. -/
def filepath.Join (dir name : String) : String :=
  if dir ≠ "" then filepath.Clean (dir ++ "/" ++ name)
  else if name ≠ "" then filepath.Clean name
  else ""

/-- The wrangler helper `slice.ContainsString(slice, item)`: whether `item` is an element. -/
def slice.ContainsString : List String → String → Bool
  | [], _ => false
  | x :: xs, item => if x = item then true else slice.ContainsString xs item

/-- Modelled from the spec: `convert.ToStringSlice` of the wrangler library,
which is not under src/. "Extract the `resources` field as an ordered
sequence of strings (missing/wrong-typed field coerces to an empty
sequence)": a `[]string` is returned as it is, the items of a
`[]interface{}` are converted one by one, anything else gives `nil`. -/
def convert.ToStringSlice (toString : Value → String) : Value → List String
  | Value.stringSlice v => v
  | Value.slice v => v.map toString
  | _ => []

/-! ## The package -/

/-- The constant `KustomizeYAML`. -/
def KustomizeYAML : String := "kustomization.yaml"

/-- The constant `ManifestsYAML`. -/
def ManifestsYAML : String := "fleet-manifests.yaml"

section Package

variable {FS O R Rs : Type}

/-- The loop of `toFilesystem` (lines 80-91): the records are added in
order to `f`; a record with an empty name is skipped, the first decode or
add failure ends the loop with that error. -/
def toFilesystem.loop (env : Env FS O R Rs) : FS → List BundleResource → Except Error FS
  | f, [] => Except.ok f
  | f, resource :: rest =>
    if resource.Name = "" then toFilesystem.loop env f rest
    else
      match env.Decode resource.Content resource.Encoding with
      | Except.error err => Except.error err
      | Except.ok data =>
        match env.AddFile f resource.Name data with
        | Except.error err => Except.error err
        | Except.ok f1 => toFilesystem.loop env f1 rest

/-- The function `toFilesystem(m, dir, manifestsContent)`: the workspace, or the error. -/
def toFilesystem (env : Env FS O R Rs) (m : Manifest) (dir : String)
    (manifestsContent : Bytes) : Except Error FS :=
  match toFilesystem.loop env env.MakeEmptyDirInMemory m.Resources with
  | Except.error err => Except.error err
  | Except.ok f => env.AddFile f (filepath.Join dir ManifestsYAML) manifestsContent

/-- The function `modifyKustomize(f, dir)`: the filesystem after the call, or the error
returned. -/
def modifyKustomize (env : Env FS O R Rs) (f : FS) (dir : String) : Except Error FS :=
  let file := filepath.Join dir KustomizeYAML
  match env.ReadFile f file with
  | Except.error err => Except.error err
  | Except.ok fileBytes =>
    match env.Unmarshal fileBytes with
    | Except.error _ => Except.ok f
    | Except.ok data =>
      let resources := convert.ToStringSlice env.ToString (data.get "resources")
      if slice.ContainsString resources ManifestsYAML then Except.ok f
      else
        let data1 := data.set "resources" (Value.stringSlice ([ManifestsYAML] ++ resources))
        match env.Marshal data1 with
        | Except.error err => Except.error err
        | Except.ok fileBytes1 => env.WriteFile f file fileBytes1

/-- The local `buildOpts` of `kustomize` (line 98): the flag list handed to
`cmd.Flags().Parse`. -/
def kustomize.buildOpts (buildOptions : String) : List String :=
  strings.Split buildOptions ' '

/-- The function `kustomize(fs, dir, buildOptions)`: the pair `(result, err)`. -/
def kustomize (env : Env FS O R Rs) (fs : FS) (dir : String) (buildOptions : String) :
    List Unstructured × Option Error :=
  let buildOpts := kustomize.buildOpts buildOptions
  let o := env.Parse env.NewCmdBuildWithOptions buildOpts
  match env.Validate o [dir] with
  | Except.error err => ([], some err)
  | Except.ok o1 =>
    match env.RunBuildWithoutEmitter o1 fs with
    | Except.error err => ([], some err)
    | Except.ok resMap =>
      ((env.Resources resMap).map (fun m => Unstructured.mk (env.Map m)), none)

/-- The local `dir` of `Process` (lines 27-30). -/
def Process.dir (options : KustomizeOptions) : String :=
  if options.Dir = "" then "." else options.Dir

/-- The function `Process(m, content, options)`: the triple `(objs, handled, err)`. -/
def Process (env : Env FS O R Rs) (m : Manifest) (content : Bytes)
    (options : KustomizeOptions) : List Unstructured × Bool × Option Error :=
  let dir := Process.dir options
  match toFilesystem env m dir content with
  | Except.error err => ([], false, some err)
  | Except.ok fs =>
    let d := filepath.Join dir KustomizeYAML
    if ¬ env.Exists fs d then ([], false, none)
    else
      let patched : Except Error FS :=
        if content.length > 0 then modifyKustomize env fs dir else Except.ok fs
      match patched with
      | Except.error err => ([], false, some err)
      | Except.ok fs1 =>
        let r := kustomize env fs1 dir options.BuildOptions
        (r.1, true, r.2)

end Package

/-! ## The build-options split as the specification words it -/

/-- The white space of Go's `unicode.IsSpace` within ASCII. -/
def isSpace (c : Char) : Bool :=
  c = ' ' ∨ c = '\t' ∨ c = '\n' ∨ c = '\r' ∨ c = Char.ofNat 11 ∨ c = Char.ofNat 12

/-- The maximal white-space-free runs of a character list, in order; `cur`
holds the characters of the run being read, last first. -/
def fieldsAux : List Char → List Char → List (List Char)
  | [], cur => if cur = [] then [] else [cur.reverse]
  | c :: cs, cur =>
    if isSpace c then
      (if cur = [] then fieldsAux cs [] else cur.reverse :: fieldsAux cs [])
    else fieldsAux cs (c :: cur)

/-- The flag list in the words of the specification ("split on whitespace"):
the maximal white-space-free substrings in order, none of them empty. -/
def whitespaceFields (s : String) : List String :=
  (fieldsAux s.data []).map String.mk

/-! ## Workspace states reached by the patcher -/

section Patched

variable {FS O R Rs : Type}

/-- The workspace after one application of `modifyKustomize` to `f`: the
filesystem it returns, and `f` itself when it returns an error. -/
def patchOnce (env : Env FS O R Rs) (dir : String) (f : FS) : FS :=
  match modifyKustomize env f dir with
  | Except.ok f1 => f1
  | Except.error _ => f

/-- The `resources` sequence of the declaration of `dir` in the workspace
`f`, as `modifyKustomize` reads it; `none` when the declaration cannot be
read or parsed. -/
def declaredResources (env : Env FS O R Rs) (dir : String) (f : FS) : Option (List String) :=
  match env.ReadFile f (filepath.Join dir KustomizeYAML) with
  | Except.error _ => none
  | Except.ok fileBytes =>
    match env.Unmarshal fileBytes with
    | Except.error _ => none
    | Except.ok data => some (convert.ToStringSlice env.ToString (data.get "resources"))

end Patched

/-! ## A concrete implementation of the collaborators -/

namespace Mem

/-- The bytes of an ASCII text. -/
def ascii (s : String) : Bytes :=
  s.data.map (fun c => UInt8.ofNat c.toNat)

/-- Modelled from the spec: the in-memory filesystem of the kustomize
library, which is not under src/. "The in-memory filesystem is effectively a
mapping from path to bytes with existence/read/write/list operations": the
files in the order they were first written. -/
abbrev FS := List (String × Bytes)

/-- Writes `data` at `path`, replacing the content of a file already there. -/
def put : FS → String → Bytes → FS
  | [], path, data => [(path, data)]
  | (p, d) :: rest, path, data =>
    if p = path then (path, data) :: rest else (p, d) :: put rest path data

/-- Adds a file; a path without a file name is refused. -/
def AddFile (f : FS) (path : String) (data : Bytes) : Except Error FS :=
  if path = "" ∨ path.data.getLast? = some '/' then
    Except.error (Error.mk "illegal name in file creation")
  else Except.ok (put f path data)

/-- Reads the file at `path`. -/
def ReadFile (f : FS) (path : String) : Except Error Bytes :=
  match f.lookup path with
  | some d => Except.ok d
  | none => Except.error (Error.mk "cannot find the file to read it")

/-- Modelled from the spec: `content.Decode` of the repository, which is
not under src/. "decode(content: bytes, encoding: string) -> bytes | error":
the empty encoding is the identity, any other is refused. -/
def Decode (content encoding : String) : Except Error Bytes :=
  if encoding = "" then Except.ok (ascii content)
  else Except.error (Error.mk "unsupported encoding")

/-- The declaration of the example scenario. -/
def declText : String := "resources:\n- deployment.yaml\n"

/-- The declaration of the example scenario once patched. -/
def patchedText : String := "resources:\n- fleet-manifests.yaml\n- deployment.yaml\n"

/-- A declaration that lists the generated manifest in the middle. -/
def listedText : String := "resources:\n- a.yaml\n- fleet-manifests.yaml\n- b.yaml\n"

/-- A deployment manifest. -/
def deploymentText : String := "kind: Deployment\n"

/-- A generated manifest. -/
def configMapText : String := "kind: ConfigMap\n"

/-- A YAML parser that knows the documents above and refuses every other
input, a bare scalar among them. -/
def Unmarshal (b : Bytes) : Except Error Doc :=
  if b = ascii declText then
    Except.ok [("resources", Value.slice [Value.string "deployment.yaml"])]
  else if b = ascii patchedText then
    Except.ok [("resources",
      Value.slice [Value.string "fleet-manifests.yaml", Value.string "deployment.yaml"])]
  else if b = ascii listedText then
    Except.ok [("resources", Value.slice [Value.string "a.yaml",
      Value.string "fleet-manifests.yaml", Value.string "b.yaml"])]
  else if b = ascii deploymentText then Except.ok [("kind", Value.string "Deployment")]
  else if b = ascii configMapText then Except.ok [("kind", Value.string "ConfigMap")]
  else Except.error (Error.mk "cannot unmarshal into a map")

/-- The conversion of one item to a string, for the scalar items. -/
def ToString : Value → String
  | Value.string s => s
  | Value.number t => t
  | Value.bool true => "true"
  | Value.bool false => "false"
  | _ => ""

/-- A YAML serializer that knows the patched declaration of the example
scenario and refuses every other document. -/
def Marshal (d : Doc) : Except Error Bytes :=
  if d.map Prod.fst = ["resources"] ∧
      convert.ToStringSlice ToString (d.get "resources")
        = ["fleet-manifests.yaml", "deployment.yaml"] then
    Except.ok (ascii patchedText)
  else Except.error (Error.mk "unsupported document")

/-- The options object of the build engine: the parsed flags and the
validated root. -/
structure Options where
  flags : List String
  root : String
deriving DecidableEq, Repr

/-- Validation wants exactly one root argument. -/
def Validate (o : Options) (args : List String) : Except Error Options :=
  match args with
  | [root] => Except.ok (Options.mk o.flags root)
  | _ => Except.error (Error.mk "specify one path to the declaration")

/-- Loads the listed resources of a declaration, relative to `root`. -/
def load (f : FS) (root : String) : List String → Except Error (List Doc)
  | [] => Except.ok []
  | r :: rest =>
    match ReadFile f (filepath.Join root r) with
    | Except.error err => Except.error err
    | Except.ok b =>
      match Unmarshal b with
      | Except.error err => Except.error err
      | Except.ok d =>
        match load f root rest with
        | Except.error err => Except.error err
        | Except.ok ds => Except.ok (d :: ds)

/-- A build engine that reads the declaration under the root and returns the
resources it lists, in order; a missing or unparsable file is an error. -/
def RunBuildWithoutEmitter (o : Options) (f : FS) : Except Error (List Doc) :=
  match ReadFile f (filepath.Join o.root KustomizeYAML) with
  | Except.error err => Except.error err
  | Except.ok b =>
    match Unmarshal b with
    | Except.error err => Except.error err
    | Except.ok d => load f o.root (convert.ToStringSlice ToString (d.get "resources"))

/-- The concrete collaborators. -/
def env : Env FS Options (List Doc) Doc where
  MakeEmptyDirInMemory := []
  AddFile := AddFile
  Exists := fun f path => (f.lookup path).isSome
  ReadFile := ReadFile
  WriteFile := AddFile
  Decode := Decode
  Unmarshal := Unmarshal
  Marshal := Marshal
  ToString := ToString
  NewCmdBuildWithOptions := Options.mk [] ""
  Parse := fun o args => Options.mk args o.root
  Validate := Validate
  RunBuildWithoutEmitter := RunBuildWithoutEmitter
  Resources := fun r => r
  Map := fun d => d

/-- The bundle of the example scenario: a deployment and the declaration
that lists it, under `base`. -/
def exampleBundle : Manifest :=
  Manifest.mk [
    BundleResource.mk "base/deployment.yaml" deploymentText "",
    BundleResource.mk "base/kustomization.yaml" declText ""]

/-- The workspace of the example scenario after patching. -/
def patchedFS : FS :=
  [("base/deployment.yaml", ascii deploymentText),
   ("base/kustomization.yaml", ascii patchedText),
   ("base/fleet-manifests.yaml", ascii configMapText)]

/-- A workspace whose declaration lists the generated manifest already. -/
def listedFS : FS :=
  [("kustomization.yaml", ascii listedText),
   ("fleet-manifests.yaml", ascii configMapText)]

/-- A bundle whose declaration is a bare scalar. -/
def scalarBundle : Manifest :=
  Manifest.mk [BundleResource.mk "kustomization.yaml" "hello" ""]

/-- A bundle whose declaration lists a file the bundle does not hold. -/
def danglingBundle : Manifest :=
  Manifest.mk [BundleResource.mk "kustomization.yaml" declText ""]

/-- A bundle that holds a record named like the generated manifest. -/
def shadowBundle : Manifest :=
  Manifest.mk [BundleResource.mk "fleet-manifests.yaml" deploymentText ""]

/-- The workspace of the example scenario before patching. -/
def exampleFS : FS :=
  [("base/deployment.yaml", ascii deploymentText),
   ("base/kustomization.yaml", ascii declText),
   ("base/fleet-manifests.yaml", ascii configMapText)]

end Mem

/-! ## Lemmas on the data model -/

section Lemmas

variable {FS O R Rs : Type}

theorem Doc.get_set_same (d : Doc) (key : String) (v : Value) :
    (d.set key v).get key = v := by
  induction d with
  | nil => simp [Doc.set, Doc.get, List.lookup]
  | cons kv rest ih =>
    obtain ⟨k, w⟩ := kv
    by_cases hk : k = key
    · subst hk
      simp [Doc.set, Doc.get, List.lookup]
    · have hne : (key == k) = false := by
        simpa using fun h : key = k => hk h.symm
      simp only [Doc.set, hk, if_false]
      simpa [Doc.get, List.lookup, hne] using ih

theorem Doc.lookup_set_other (d : Doc) (key other : String) (v : Value)
    (h : other ≠ key) : (d.set key v).lookup other = d.lookup other := by
  have hne : (other == key) = false := by simpa using h
  induction d with
  | nil => simp [Doc.set, List.lookup, hne]
  | cons kv rest ih =>
    obtain ⟨k, w⟩ := kv
    by_cases hk : k = key
    · subst hk
      simp [Doc.set, List.lookup, hne]
    · simp only [Doc.set, hk, if_false]
      cases hko : (other == k) <;> simp [List.lookup, hko, ih]

theorem slice.ContainsString_iff (l : List String) (item : String) :
    slice.ContainsString l item = true ↔ item ∈ l := by
  induction l with
  | nil => simp [slice.ContainsString]
  | cons x xs ih =>
    by_cases hx : x = item
    · simp [slice.ContainsString, hx]
    · have hx2 : ¬ item = x := fun h => hx h.symm
      simp [slice.ContainsString, hx, hx2, ih]

theorem toFilesystem.loop_congr (env env2 : Env FS O R Rs)
    (hAdd : env2.AddFile = env.AddFile) (hDec : env2.Decode = env.Decode)
    (f : FS) (rs : List BundleResource) :
    toFilesystem.loop env2 f rs = toFilesystem.loop env f rs := by
  induction rs generalizing f with
  | nil => rfl
  | cons r rest ih =>
    simp only [toFilesystem.loop, hAdd, hDec]
    split
    · exact ih f
    · cases env.Decode r.Content r.Encoding with
      | error err => rfl
      | ok data =>
        dsimp only
        cases env.AddFile f r.Name data with
        | error err => rfl
        | ok f1 => exact ih f1

theorem toFilesystem_congr (env env2 : Env FS O R Rs)
    (hEmpty : env2.MakeEmptyDirInMemory = env.MakeEmptyDirInMemory)
    (hAdd : env2.AddFile = env.AddFile) (hDec : env2.Decode = env.Decode)
    (m : Manifest) (dir : String) (content : Bytes) :
    toFilesystem env2 m dir content = toFilesystem env m dir content := by
  simp only [toFilesystem, hEmpty, toFilesystem.loop_congr env env2 hAdd hDec, hAdd]

theorem toFilesystem.loop_filter (env : Env FS O R Rs) (f : FS) (rs : List BundleResource) :
    toFilesystem.loop env f (rs.filter (fun r => decide (r.Name ≠ ""))) =
      toFilesystem.loop env f rs := by
  induction rs generalizing f with
  | nil => rfl
  | cons r rest ih =>
    by_cases hr : r.Name = ""
    · rw [List.filter_cons_of_neg (by simp [hr])]
      simp only [toFilesystem.loop, hr, if_true]
      exact ih f
    · rw [List.filter_cons_of_pos (by simp [hr])]
      simp only [toFilesystem.loop, hr, if_false]
      cases env.Decode r.Content r.Encoding with
      | error err => rfl
      | ok data =>
        dsimp only
        cases env.AddFile f r.Name data with
        | error err => rfl
        | ok f1 => exact ih f1

theorem splitAux_ne_nil (sep : Char) (l cur : List Char) : splitAux sep l cur ≠ [] := by
  induction l generalizing cur with
  | nil => simp [splitAux]
  | cons c cs ih =>
    by_cases hc : c = sep
    · simp [splitAux, hc]
    · simpa [splitAux, hc] using ih (c :: cur)

theorem splitAux_length (sep : Char) (l cur : List Char) :
    (splitAux sep l cur).length = l.count sep + 1 := by
  induction l generalizing cur with
  | nil => simp [splitAux]
  | cons c cs ih =>
    by_cases hc : c = sep
    · simp [splitAux, hc, ih, List.count_cons]
    · simp [splitAux, hc, ih, List.count_cons]

theorem splitAux_no_sep (sep : Char) (l cur : List Char) (hcur : sep ∉ cur) :
    ∀ x ∈ splitAux sep l cur, sep ∉ x := by
  induction l generalizing cur with
  | nil =>
    intro x hx
    simp only [splitAux, List.mem_singleton] at hx
    subst hx
    simpa using hcur
  | cons c cs ih =>
    intro x hx
    by_cases hc : c = sep
    · simp only [splitAux, hc, if_true, List.mem_cons] at hx
      rcases hx with hx | hx
      · subst hx
        simpa using hcur
      · exact ih [] (by simp) x hx
    · simp only [splitAux, hc, if_false] at hx
      refine ih (c :: cur) ?_ x hx
      simp only [List.mem_cons, not_or]
      exact ⟨fun h => hc h.symm, hcur⟩

theorem String.intercalate_go_data (sep acc : String) (l : List String) :
    (String.intercalate.go acc sep l).data =
      acc.data ++ (l.map (fun x => sep.data ++ x.data)).flatten := by
  induction l generalizing acc with
  | nil => simp [String.intercalate.go]
  | cons a as ih => simp [String.intercalate.go, ih, List.append_assoc]

theorem splitAux_intercalate (sep : Char) (l cur : List Char) :
    (String.intercalate (String.mk [sep]) ((splitAux sep l cur).map String.mk)).data =
      cur.reverse ++ l := by
  induction l generalizing cur with
  | nil => simp [splitAux, String.intercalate, String.intercalate.go]
  | cons c cs ih =>
    by_cases hc : c = sep
    · have h := ih []
      obtain ⟨y, ys, hy⟩ := List.exists_cons_of_ne_nil (splitAux_ne_nil sep cs [])
      rw [hy] at h
      simp only [splitAux, hc, if_true, hy, List.map_cons, String.intercalate,
        String.intercalate_go_data] at h ⊢
      simp only [List.reverse_nil, List.nil_append] at h
      simp [← h]
    · simpa [splitAux, hc] using ih (c :: cur)

theorem Mem.lookup_put (g : Mem.FS) (path : String) (b : Bytes) :
    (Mem.put g path b).lookup path = some b := by
  induction g with
  | nil => simp [Mem.put, List.lookup]
  | cons kv rest ih =>
    obtain ⟨p, d⟩ := kv
    by_cases hp : p = path
    · subst hp
      simp [Mem.put, List.lookup]
    · have hne : (path == p) = false := by
        simpa using fun h : path = p => hp h.symm
      simp only [Mem.put, hp, if_false]
      simpa [List.lookup, hne] using ih

theorem Mem.read_after_add (g g1 : Mem.FS) (path : String) (b : Bytes)
    (h : Mem.AddFile g path b = Except.ok g1) : Mem.ReadFile g1 path = Except.ok b := by
  unfold Mem.AddFile at h
  split at h
  · cases h
  · cases h
    simp [Mem.ReadFile, Mem.lookup_put]

theorem Mem.codec_roundtrip (d d2 : Doc) (l : List String) (b : Bytes)
    (hget : d.get "resources" = Value.stringSlice l)
    (hm : Mem.Marshal d = Except.ok b) (hu : Mem.Unmarshal b = Except.ok d2) :
    convert.ToStringSlice Mem.ToString (d2.get "resources") = l := by
  unfold Mem.Marshal at hm
  split at hm
  · rename_i hcond
    cases hm
    have hl : l = ["fleet-manifests.yaml", "deployment.yaml"] := by
      have h2 := hcond.2
      rw [hget] at h2
      simpa [convert.ToStringSlice] using h2
    have hd2 : Mem.Unmarshal (Mem.ascii Mem.patchedText) = Except.ok
        [("resources", Value.slice
          [Value.string "fleet-manifests.yaml", Value.string "deployment.yaml"])] := rfl
    rw [hd2] at hu
    cases hu
    rw [hl]
    rfl
  · cases hm

theorem modifyKustomize_stable (env : Env FS O R Rs) (dir : String)
    (hRW : ∀ (g g1 : FS) (path : String) (b : Bytes),
      env.WriteFile g path b = Except.ok g1 → env.ReadFile g1 path = Except.ok b)
    (hRT : ∀ (d d2 : Doc) (l : List String) (b : Bytes),
      d.get "resources" = Value.stringSlice l → env.Marshal d = Except.ok b →
      env.Unmarshal b = Except.ok d2 →
      convert.ToStringSlice env.ToString (d2.get "resources") = l)
    (f f1 : FS) (h : modifyKustomize env f dir = Except.ok f1) :
    modifyKustomize env f1 dir = Except.ok f1 := by
  have h0 := h
  unfold modifyKustomize at h
  dsimp only at h
  cases hRead : env.ReadFile f (filepath.Join dir KustomizeYAML) with
  | error err => rw [hRead] at h; cases h
  | ok fileBytes =>
    rw [hRead] at h
    dsimp only at h
    cases hParse : env.Unmarshal fileBytes with
    | error err =>
      rw [hParse] at h
      cases h
      exact h0
    | ok data =>
      rw [hParse] at h
      dsimp only at h
      by_cases hc : slice.ContainsString
          (convert.ToStringSlice env.ToString (data.get "resources")) ManifestsYAML = true
      · rw [if_pos hc] at h
        cases h
        exact h0
      · rw [if_neg hc] at h
        cases hMarshal : env.Marshal (data.set "resources" (Value.stringSlice
            ([ManifestsYAML] ++ convert.ToStringSlice env.ToString (data.get "resources")))) with
        | error err => rw [hMarshal] at h; cases h
        | ok out =>
          rw [hMarshal] at h
          dsimp only at h
          have hRead1 := hRW f f1 _ out h
          unfold modifyKustomize
          dsimp only
          rw [hRead1]
          dsimp only
          cases hParse1 : env.Unmarshal out with
          | error err => rfl
          | ok d2 =>
            dsimp only
            have hres := hRT _ d2 _ out (Doc.get_set_same _ _ _) hMarshal hParse1
            have hc1 : slice.ContainsString
                (convert.ToStringSlice env.ToString (d2.get "resources")) ManifestsYAML
                  = true := by
              rw [hres]
              simp [slice.ContainsString]
            rw [if_pos hc1]

theorem kustomize_cases (env : Env FS O R Rs) (g : FS) (dir opts : String) :
    (∃ err,
        env.Validate (env.Parse env.NewCmdBuildWithOptions (kustomize.buildOpts opts)) [dir]
          = Except.error err ∧
        kustomize env g dir opts = ([], some err)) ∨
    (∃ o1 err,
        env.Validate (env.Parse env.NewCmdBuildWithOptions (kustomize.buildOpts opts)) [dir]
          = Except.ok o1 ∧
        env.RunBuildWithoutEmitter o1 g = Except.error err ∧
        kustomize env g dir opts = ([], some err)) ∨
    (∃ o1 resMap,
        env.Validate (env.Parse env.NewCmdBuildWithOptions (kustomize.buildOpts opts)) [dir]
          = Except.ok o1 ∧
        env.RunBuildWithoutEmitter o1 g = Except.ok resMap ∧
        kustomize env g dir opts =
          ((env.Resources resMap).map (fun r => Unstructured.mk (env.Map r)), none)) := by
  cases hV : env.Validate (env.Parse env.NewCmdBuildWithOptions (kustomize.buildOpts opts))
      [dir] with
  | error err =>
    exact Or.inl ⟨err, rfl, by simp only [kustomize, hV]⟩
  | ok o1 =>
    cases hB : env.RunBuildWithoutEmitter o1 g with
    | error err =>
      exact Or.inr (Or.inl ⟨o1, err, rfl, hB, by simp only [kustomize, hV, hB]⟩)
    | ok resMap =>
      exact Or.inr (Or.inr ⟨o1, resMap, rfl, hB, by simp only [kustomize, hV, hB]⟩)

theorem Process_of_patched (env : Env FS O R Rs) (m : Manifest) (content : Bytes)
    (options : KustomizeOptions) (fs fs1 : FS)
    (hBuilt : toFilesystem env m (Process.dir options) content = Except.ok fs)
    (hExists : env.Exists fs (filepath.Join (Process.dir options) KustomizeYAML) = true)
    (hPatch : (content = [] ∧ fs1 = fs) ∨
      (content ≠ [] ∧ modifyKustomize env fs (Process.dir options) = Except.ok fs1)) :
    Process env m content options =
      ((kustomize env fs1 (Process.dir options) options.BuildOptions).1, true,
       (kustomize env fs1 (Process.dir options) options.BuildOptions).2) := by
  rcases hPatch with ⟨hc, hfs⟩ | ⟨hc, hmod⟩
  · subst hc
    subst hfs
    simp [Process, hBuilt, hExists]
  · have hLen : content.length > 0 := List.length_pos.2 hc
    simp [Process, hBuilt, hExists, hLen, hmod]

theorem Process_cases (env : Env FS O R Rs) (m : Manifest) (content : Bytes)
    (options : KustomizeOptions) :
    (∃ err, toFilesystem env m (Process.dir options) content = Except.error err ∧
        Process env m content options = ([], false, some err)) ∨
    (∃ fs, toFilesystem env m (Process.dir options) content = Except.ok fs ∧
        env.Exists fs (filepath.Join (Process.dir options) KustomizeYAML) = false ∧
        Process env m content options = ([], false, none)) ∨
    (∃ fs err, toFilesystem env m (Process.dir options) content = Except.ok fs ∧
        env.Exists fs (filepath.Join (Process.dir options) KustomizeYAML) = true ∧
        content ≠ [] ∧
        modifyKustomize env fs (Process.dir options) = Except.error err ∧
        Process env m content options = ([], false, some err)) ∨
    (∃ fs fs1, toFilesystem env m (Process.dir options) content = Except.ok fs ∧
        env.Exists fs (filepath.Join (Process.dir options) KustomizeYAML) = true ∧
        ((content = [] ∧ fs1 = fs) ∨
          (content ≠ [] ∧ modifyKustomize env fs (Process.dir options) = Except.ok fs1)) ∧
        Process env m content options =
          ((kustomize env fs1 (Process.dir options) options.BuildOptions).1, true,
           (kustomize env fs1 (Process.dir options) options.BuildOptions).2) ∧
        ((∃ err,
            env.Validate (env.Parse env.NewCmdBuildWithOptions
              (kustomize.buildOpts options.BuildOptions)) [Process.dir options]
                = Except.error err ∧
            Process env m content options = ([], true, some err)) ∨
          (∃ o1 err,
            env.Validate (env.Parse env.NewCmdBuildWithOptions
              (kustomize.buildOpts options.BuildOptions)) [Process.dir options]
                = Except.ok o1 ∧
            env.RunBuildWithoutEmitter o1 fs1 = Except.error err ∧
            Process env m content options = ([], true, some err)) ∨
          (∃ o1 resMap,
            env.Validate (env.Parse env.NewCmdBuildWithOptions
              (kustomize.buildOpts options.BuildOptions)) [Process.dir options]
                = Except.ok o1 ∧
            env.RunBuildWithoutEmitter o1 fs1 = Except.ok resMap ∧
            Process env m content options =
              ((env.Resources resMap).map (fun r => Unstructured.mk (env.Map r)),
               true, none)))) := by
  cases hBuilt : toFilesystem env m (Process.dir options) content with
  | error err =>
    exact Or.inl ⟨err, rfl, by simp [Process, hBuilt]⟩
  | ok fs =>
    cases hExists : env.Exists fs (filepath.Join (Process.dir options) KustomizeYAML) with
    | false =>
      exact Or.inr (Or.inl ⟨fs, rfl, hExists, by simp [Process, hBuilt, hExists]⟩)
    | true =>
      have hRun : ∀ fs1 : FS,
          ((content = [] ∧ fs1 = fs) ∨
            (content ≠ [] ∧ modifyKustomize env fs (Process.dir options) = Except.ok fs1)) →
          ∃ fs1, ((content = [] ∧ fs1 = fs) ∨
            (content ≠ [] ∧ modifyKustomize env fs (Process.dir options) = Except.ok fs1)) ∧
          Process env m content options =
            ((kustomize env fs1 (Process.dir options) options.BuildOptions).1, true,
             (kustomize env fs1 (Process.dir options) options.BuildOptions).2) ∧
          ((∃ err,
              env.Validate (env.Parse env.NewCmdBuildWithOptions
                (kustomize.buildOpts options.BuildOptions)) [Process.dir options]
                  = Except.error err ∧
              Process env m content options = ([], true, some err)) ∨
            (∃ o1 err,
              env.Validate (env.Parse env.NewCmdBuildWithOptions
                (kustomize.buildOpts options.BuildOptions)) [Process.dir options]
                  = Except.ok o1 ∧
              env.RunBuildWithoutEmitter o1 fs1 = Except.error err ∧
              Process env m content options = ([], true, some err)) ∨
            (∃ o1 resMap,
              env.Validate (env.Parse env.NewCmdBuildWithOptions
                (kustomize.buildOpts options.BuildOptions)) [Process.dir options]
                  = Except.ok o1 ∧
              env.RunBuildWithoutEmitter o1 fs1 = Except.ok resMap ∧
              Process env m content options =
                ((env.Resources resMap).map (fun r => Unstructured.mk (env.Map r)),
                 true, none))) := by
        intro fs1 hPatch
        have hP := Process_of_patched env m content options fs fs1 hBuilt hExists hPatch
        refine ⟨fs1, hPatch, hP, ?_⟩
        rcases kustomize_cases env fs1 (Process.dir options) options.BuildOptions with
          ⟨err, hV, hk⟩ | ⟨o1, err, hV, hB, hk⟩ | ⟨o1, resMap, hV, hB, hk⟩
        · exact Or.inl ⟨err, hV, by rw [hP, hk]⟩
        · exact Or.inr (Or.inl ⟨o1, err, hV, hB, by rw [hP, hk]⟩)
        · exact Or.inr (Or.inr ⟨o1, resMap, hV, hB, by rw [hP, hk]⟩)
      by_cases hc : content = []
      · obtain ⟨fs1, h1, h2, h3⟩ := hRun fs (Or.inl ⟨hc, rfl⟩)
        exact Or.inr (Or.inr (Or.inr ⟨fs, fs1, rfl, hExists, h1, h2, h3⟩))
      · cases hMod : modifyKustomize env fs (Process.dir options) with
        | error err =>
          have hLen : content.length > 0 := List.length_pos.2 hc
          exact Or.inr (Or.inr (Or.inl ⟨fs, err, rfl, hExists, hc, hMod,
            by simp [Process, hBuilt, hExists, hLen, hMod]⟩))
        | ok fs1 =>
          obtain ⟨fs2, h1, h2, h3⟩ := hRun fs1 (Or.inr ⟨hc, hMod⟩)
          exact Or.inr (Or.inr (Or.inr ⟨fs, fs2, rfl, hExists, h1, h2, h3⟩))

end Lemmas

/-! ## The claims -/

section Claims

variable {FS O R Rs : Type}

/-- C1: when the declaration of `dir` parses to a document `data` whose
resources sequence does not list `fleet-manifests.yaml`, and serialization
and write succeed, `modifyKustomize` succeeds and the filesystem it leaves
is the one obtained by writing, at the declaration path, the serialization
of `data` with `resources` set to `fleet-manifests.yaml` followed by the old
sequence in its order; every other key of that document has the entry it has
in `data`. -/
theorem C1_modifyKustomize_prepends (env : Env FS O R Rs) (f f1 : FS) (dir : String)
    (fileBytes out : Bytes) (data : Doc)
    (hRead : env.ReadFile f (filepath.Join dir KustomizeYAML) = Except.ok fileBytes)
    (hParse : env.Unmarshal fileBytes = Except.ok data)
    (hNew : ManifestsYAML ∉ convert.ToStringSlice env.ToString (data.get "resources"))
    (hMarshal : env.Marshal (data.set "resources" (Value.stringSlice
      (ManifestsYAML :: convert.ToStringSlice env.ToString (data.get "resources"))))
        = Except.ok out)
    (hWrite : env.WriteFile f (filepath.Join dir KustomizeYAML) out = Except.ok f1) :
    modifyKustomize env f dir = Except.ok f1 ∧
    (data.set "resources" (Value.stringSlice
      (ManifestsYAML :: convert.ToStringSlice env.ToString (data.get "resources")))).get
        "resources"
      = Value.stringSlice
          (ManifestsYAML :: convert.ToStringSlice env.ToString (data.get "resources")) ∧
    ∀ key : String, key ≠ "resources" →
      (data.set "resources" (Value.stringSlice
        (ManifestsYAML :: convert.ToStringSlice env.ToString (data.get "resources")))).lookup
          key
        = data.lookup key := by
  refine ⟨?_, Doc.get_set_same _ _ _, fun key hkey => Doc.lookup_set_other _ _ _ _ hkey⟩
  have hc : slice.ContainsString
      (convert.ToStringSlice env.ToString (data.get "resources")) ManifestsYAML = false := by
    cases hcs : slice.ContainsString
      (convert.ToStringSlice env.ToString (data.get "resources")) ManifestsYAML with
    | false => rfl
    | true => exact absurd ((slice.ContainsString_iff _ _).1 hcs) hNew
  simp only [modifyKustomize, hRead, hParse, hc, List.singleton_append, hMarshal, hWrite]
  simp

/-- C1, on the example scenario: the declaration `resources: [deployment.yaml]`
under `base` is rewritten to list `fleet-manifests.yaml` first. -/
theorem C1_modifyKustomize_prepends_witness :
    modifyKustomize Mem.env Mem.exampleFS "base" = Except.ok Mem.patchedFS ∧
    declaredResources Mem.env "base" Mem.patchedFS
      = some ["fleet-manifests.yaml", "deployment.yaml"] :=
  ⟨(C1_modifyKustomize_prepends Mem.env Mem.exampleFS Mem.patchedFS "base"
      (Mem.ascii Mem.declText) (Mem.ascii Mem.patchedText)
      [("resources", Value.slice [Value.string "deployment.yaml"])]
      rfl rfl (by decide) rfl rfl).1, rfl⟩

/-- C10: when the declaration of `dir` parses and its resources sequence
lists `fleet-manifests.yaml` at any position, `modifyKustomize` succeeds and
returns the filesystem it was given: nothing is written. -/
theorem C10_modifyKustomize_listed_unchanged (env : Env FS O R Rs) (f : FS) (dir : String)
    (fileBytes : Bytes) (data : Doc)
    (hRead : env.ReadFile f (filepath.Join dir KustomizeYAML) = Except.ok fileBytes)
    (hParse : env.Unmarshal fileBytes = Except.ok data)
    (hListed : ManifestsYAML ∈ convert.ToStringSlice env.ToString (data.get "resources")) :
    modifyKustomize env f dir = Except.ok f ∧
    env.ReadFile (patchOnce env dir f) (filepath.Join dir KustomizeYAML)
      = Except.ok fileBytes := by
  have hc := (slice.ContainsString_iff _ _).2 hListed
  have h : modifyKustomize env f dir = Except.ok f := by
    simp only [modifyKustomize, hRead, hParse, hc, if_true]
  exact ⟨h, by simp only [patchOnce, h, hRead]⟩

/-- C10, on a declaration that lists the generated manifest between two
other resources. -/
theorem C10_modifyKustomize_listed_unchanged_witness :
    declaredResources Mem.env "." Mem.listedFS
      = some ["a.yaml", "fleet-manifests.yaml", "b.yaml"] ∧
    modifyKustomize Mem.env Mem.listedFS "." = Except.ok Mem.listedFS :=
  ⟨rfl, (C10_modifyKustomize_listed_unchanged Mem.env Mem.listedFS "."
      (Mem.ascii Mem.listedText)
      [("resources", Value.slice [Value.string "a.yaml",
        Value.string "fleet-manifests.yaml", Value.string "b.yaml"])]
      rfl rfl (by decide)).1⟩

/-- C3: when the workspace is built and has no file at
`join(dir, "kustomization.yaml")`, with `dir` the target directory (`.` when
the option is empty), `Process` returns `(nil, false, nil)`, for every
manifest byte string and every options value. The result does not depend on
what reads, parses, serializes or writes the declaration, nor on the build
engine: it is the same for every choice of those collaborators. -/
theorem C3_Process_no_declaration (env : Env FS O R Rs) (m : Manifest) (content : Bytes)
    (options : KustomizeOptions) (fs : FS)
    (hBuilt : toFilesystem env m (Process.dir options) content = Except.ok fs)
    (hAbsent : env.Exists fs (filepath.Join (Process.dir options) KustomizeYAML) = false) :
    Process env m content options = ([], false, none) ∧
    ∀ env2 : Env FS O R Rs,
      env2.MakeEmptyDirInMemory = env.MakeEmptyDirInMemory →
      env2.AddFile = env.AddFile → env2.Decode = env.Decode → env2.Exists = env.Exists →
      Process env2 m content options = ([], false, none) := by
  refine ⟨by simp [Process, hBuilt, hAbsent], ?_⟩
  intro env2 hEmpty hAdd hDec hEx
  have hBuilt2 := toFilesystem_congr env env2 hEmpty hAdd hDec m (Process.dir options) content
  simp [Process, hBuilt2, hBuilt, hEx, hAbsent]

/-- C3, on a bundle without a declaration and an empty target directory. -/
theorem C3_Process_no_declaration_witness :
    Process.dir (KustomizeOptions.mk "" "--enable_alpha_plugins") = "." ∧
    Process Mem.env Mem.shadowBundle (Mem.ascii Mem.configMapText)
      (KustomizeOptions.mk "" "--enable_alpha_plugins") = ([], false, none) :=
  ⟨rfl, (C3_Process_no_declaration Mem.env Mem.shadowBundle (Mem.ascii Mem.configMapText)
      (KustomizeOptions.mk "" "--enable_alpha_plugins")
      [("fleet-manifests.yaml", Mem.ascii Mem.configMapText)] rfl rfl).1⟩

/-- C5: when `manifestBytes` is not empty, the workspace is built, the
declaration exists and its bytes do not parse, the patch step returns no
error and the filesystem it was given (so the declaration keeps its bytes),
and `Process` returns `(objs, true, err)` with `(objs, err)` the result of
`kustomize` on that unmodified workspace. -/
theorem C5_Process_tolerates_unparsable (env : Env FS O R Rs) (m : Manifest) (content : Bytes)
    (options : KustomizeOptions) (fs : FS) (fileBytes : Bytes) (parseErr : Error)
    (hContent : content ≠ [])
    (hBuilt : toFilesystem env m (Process.dir options) content = Except.ok fs)
    (hExists : env.Exists fs (filepath.Join (Process.dir options) KustomizeYAML) = true)
    (hRead : env.ReadFile fs (filepath.Join (Process.dir options) KustomizeYAML)
      = Except.ok fileBytes)
    (hParse : env.Unmarshal fileBytes = Except.error parseErr) :
    modifyKustomize env fs (Process.dir options) = Except.ok fs ∧
    env.ReadFile (patchOnce env (Process.dir options) fs)
      (filepath.Join (Process.dir options) KustomizeYAML) = Except.ok fileBytes ∧
    Process env m content options =
      ((kustomize env fs (Process.dir options) options.BuildOptions).1, true,
       (kustomize env fs (Process.dir options) options.BuildOptions).2) := by
  have hPatch : modifyKustomize env fs (Process.dir options) = Except.ok fs := by
    simp only [modifyKustomize, hRead, hParse]
  have hLen : content.length > 0 := List.length_pos.2 hContent
  refine ⟨hPatch, by simp only [patchOnce, hPatch, hRead], ?_⟩
  simp [Process, hBuilt, hExists, hLen, hPatch]

/-- C5, on a declaration that is the bare scalar `hello`: the build runs on
the unmodified workspace, and fails there. -/
theorem C5_Process_tolerates_unparsable_witness :
    modifyKustomize Mem.env
      [("kustomization.yaml", Mem.ascii "hello"),
       ("fleet-manifests.yaml", Mem.ascii Mem.configMapText)] "."
      = Except.ok [("kustomization.yaml", Mem.ascii "hello"),
       ("fleet-manifests.yaml", Mem.ascii Mem.configMapText)] ∧
    Process Mem.env Mem.scalarBundle (Mem.ascii Mem.configMapText) (KustomizeOptions.mk "" "")
      = ([], true, some (Error.mk "cannot unmarshal into a map")) :=
  have h := C5_Process_tolerates_unparsable Mem.env Mem.scalarBundle
    (Mem.ascii Mem.configMapText) (KustomizeOptions.mk "" "")
    [("kustomization.yaml", Mem.ascii "hello"),
     ("fleet-manifests.yaml", Mem.ascii Mem.configMapText)]
    (Mem.ascii "hello") (Error.mk "cannot unmarshal into a map")
    (by decide) rfl rfl rfl rfl
  ⟨h.1, h.2.2⟩

/-- C7: when the workspace is built, the declaration exists and the patch
step (run only when `manifestBytes` is not empty) returns no error and the
workspace `fs1`, `Process` returns `(objs, true, err)` with `(objs, err)`
what `kustomize` returns for `fs1`, the target directory and the
build-options string; the flag is `true` whatever `err` is. -/
theorem C7_Process_returns_build_result (env : Env FS O R Rs) (m : Manifest)
    (content : Bytes) (options : KustomizeOptions) (fs fs1 : FS)
    (hBuilt : toFilesystem env m (Process.dir options) content = Except.ok fs)
    (hExists : env.Exists fs (filepath.Join (Process.dir options) KustomizeYAML) = true)
    (hPatch : (content = [] ∧ fs1 = fs) ∨
      (content ≠ [] ∧ modifyKustomize env fs (Process.dir options) = Except.ok fs1)) :
    Process env m content options =
      ((kustomize env fs1 (Process.dir options) options.BuildOptions).1, true,
       (kustomize env fs1 (Process.dir options) options.BuildOptions).2) ∧
    (Process env m content options).2.1 = true := by
  have key : Process env m content options =
      ((kustomize env fs1 (Process.dir options) options.BuildOptions).1, true,
       (kustomize env fs1 (Process.dir options) options.BuildOptions).2) := by
    rcases hPatch with ⟨hc, hfs⟩ | ⟨hc, hmod⟩
    · subst hc
      subst hfs
      simp [Process, hBuilt, hExists]
    · have hLen : content.length > 0 := List.length_pos.2 hc
      simp [Process, hBuilt, hExists, hLen, hmod]
  exact ⟨key, by rw [key]⟩

/-- C7, on the example scenario: the declaration under `base` is patched and
the build returns the generated ConfigMap and the Deployment. -/
theorem C7_Process_returns_build_result_witness :
    Process Mem.env Mem.exampleBundle (Mem.ascii Mem.configMapText)
      (KustomizeOptions.mk "base" "")
      = ((kustomize Mem.env Mem.patchedFS "base" "").1, true,
         (kustomize Mem.env Mem.patchedFS "base" "").2) ∧
    (kustomize Mem.env Mem.patchedFS "base" "").1.map Unstructured.Object
      = [[("kind", Value.string "ConfigMap")], [("kind", Value.string "Deployment")]] ∧
    (kustomize Mem.env Mem.patchedFS "base" "").2 = none :=
  ⟨(C7_Process_returns_build_result Mem.env Mem.exampleBundle (Mem.ascii Mem.configMapText)
      (KustomizeOptions.mk "base" "") Mem.exampleFS Mem.patchedFS rfl rfl
      (Or.inr ⟨by decide, rfl⟩)).1, rfl, rfl⟩

/-- C6, as stated, fails: on a bundle whose declaration lists a file that is
not in the workspace the build fails, and `Process` returns a non-nil error
with the handled flag `true`. -/
theorem C6_counterexample :
    Process Mem.env Mem.danglingBundle [] (KustomizeOptions.mk "" "")
      = ([], true, some (Error.mk "cannot find the file to read it")) ∧
    (Process Mem.env Mem.danglingBundle [] (KustomizeOptions.mk "" "")).2.1 = true ∧
    (Process Mem.env Mem.danglingBundle [] (KustomizeOptions.mk "" "")).2.2 ≠ none :=
  ⟨rfl, rfl, by decide⟩

/-- C6, amended: `Process` has four kinds of outcome, each tied to its cause.
The workspace construction fails with `err`: `(nil, false, err)`. The
workspace is built and has no declaration: `(nil, false, nil)`. The
declaration exists, `manifestBytes` is not empty and the patch fails with
`err`: `(nil, false, err)`. The declaration exists and the patch step, when
run, succeeds: `(objs, true, err)` with `(objs, err)` the result of
`kustomize`, which is `(nil, err)` when validation or the build fails with
`err` and the object list with no error otherwise. So an error with handled
`false` comes from the workspace construction or the patch, an error with
handled `true` from the build, and the object list is nil whenever the error
is non-nil and whenever handled is `false`. -/
theorem C6_Process_outcomes (env : Env FS O R Rs) (m : Manifest) (content : Bytes)
    (options : KustomizeOptions) :
    (
    (∃ err, toFilesystem env m (Process.dir options) content = Except.error err ∧
        Process env m content options = ([], false, some err)) ∨
    (∃ fs, toFilesystem env m (Process.dir options) content = Except.ok fs ∧
        env.Exists fs (filepath.Join (Process.dir options) KustomizeYAML) = false ∧
        Process env m content options = ([], false, none)) ∨
    (∃ fs err, toFilesystem env m (Process.dir options) content = Except.ok fs ∧
        env.Exists fs (filepath.Join (Process.dir options) KustomizeYAML) = true ∧
        content ≠ [] ∧
        modifyKustomize env fs (Process.dir options) = Except.error err ∧
        Process env m content options = ([], false, some err)) ∨
    (∃ fs fs1, toFilesystem env m (Process.dir options) content = Except.ok fs ∧
        env.Exists fs (filepath.Join (Process.dir options) KustomizeYAML) = true ∧
        ((content = [] ∧ fs1 = fs) ∨
          (content ≠ [] ∧ modifyKustomize env fs (Process.dir options) = Except.ok fs1)) ∧
        Process env m content options =
          ((kustomize env fs1 (Process.dir options) options.BuildOptions).1, true,
           (kustomize env fs1 (Process.dir options) options.BuildOptions).2) ∧
        ((∃ err,
            env.Validate (env.Parse env.NewCmdBuildWithOptions
              (kustomize.buildOpts options.BuildOptions)) [Process.dir options]
                = Except.error err ∧
            Process env m content options = ([], true, some err)) ∨
          (∃ o1 err,
            env.Validate (env.Parse env.NewCmdBuildWithOptions
              (kustomize.buildOpts options.BuildOptions)) [Process.dir options]
                = Except.ok o1 ∧
            env.RunBuildWithoutEmitter o1 fs1 = Except.error err ∧
            Process env m content options = ([], true, some err)) ∨
          (∃ o1 resMap,
            env.Validate (env.Parse env.NewCmdBuildWithOptions
              (kustomize.buildOpts options.BuildOptions)) [Process.dir options]
                = Except.ok o1 ∧
            env.RunBuildWithoutEmitter o1 fs1 = Except.ok resMap ∧
            Process env m content options =
              ((env.Resources resMap).map (fun r => Unstructured.mk (env.Map r)),
               true, none))))) ∧
    (((Process env m content options).2.1 = true ∧
        (Process env m content options).2.2 = none) ∨
      Process env m content options = ([], false, none) ∨
      ((Process env m content options).1 = [] ∧
        (Process env m content options).2.1 = false ∧
        (Process env m content options).2.2 ≠ none) ∨
      ((Process env m content options).1 = [] ∧
        (Process env m content options).2.1 = true ∧
        (Process env m content options).2.2 ≠ none)) ∧
    ((Process env m content options).2.2 ≠ none → (Process env m content options).1 = []) ∧
    ((Process env m content options).2.1 = false → (Process env m content options).1 = []) := by
  have hCauses := Process_cases env m content options
  refine ⟨hCauses, ?_⟩
  rcases hCauses with ⟨err, _, hP⟩ | ⟨fs, _, _, hP⟩ | ⟨fs, err, _, _, _, _, hP⟩ |
    ⟨fs, fs1, _, _, _, _, hB⟩
  · rw [hP]; simp
  · rw [hP]; simp
  · rw [hP]; simp
  · rcases hB with ⟨err, _, hP⟩ | ⟨o1, err, _, _, hP⟩ | ⟨o1, resMap, _, _, hP⟩
    · rw [hP]; simp
    · rw [hP]; simp
    · rw [hP]; simp

/-- C9: `toFilesystem` gives the same outcome, error or workspace, on a
bundle and on the bundle with its empty-named records removed; a bundle of
empty-named records only gives the workspace that holds the generated
manifest alone, whatever the content and encoding of the records. -/
theorem C9_toFilesystem_ignores_empty_names (env : Env FS O R Rs) (m : Manifest)
    (dir : String) (manifestBytes : Bytes) :
    toFilesystem env m dir manifestBytes =
      toFilesystem env (Manifest.mk (m.Resources.filter (fun r => decide (r.Name ≠ ""))))
        dir manifestBytes ∧
    ((∀ r ∈ m.Resources, r.Name = "") →
      toFilesystem env m dir manifestBytes =
        env.AddFile env.MakeEmptyDirInMemory (filepath.Join dir ManifestsYAML) manifestBytes) := by
  constructor
  · simp only [toFilesystem, toFilesystem.loop_filter]
  · intro hAll
    have hloop : ∀ (rs : List BundleResource) (f : FS), (∀ r ∈ rs, r.Name = "") →
        toFilesystem.loop env f rs = Except.ok f := by
      intro rs
      induction rs with
      | nil => intro f _; rfl
      | cons r rest ih =>
        intro f h
        have hr : r.Name = "" := h r (List.mem_cons_self _ _)
        simp only [toFilesystem.loop, hr, if_true]
        exact ih f (fun x hx => h x (List.mem_cons_of_mem _ hx))
    simp only [toFilesystem, hloop m.Resources _ hAll]

/-- C9, on a bundle whose first record has an empty name and a content its
encoding cannot decode: the workspace is the one of the example bundle. -/
theorem C9_toFilesystem_ignores_empty_names_witness :
    Mem.Decode "@@" "base64" = Except.error (Error.mk "unsupported encoding") ∧
    toFilesystem Mem.env
      (Manifest.mk (BundleResource.mk "" "@@" "base64" :: Mem.exampleBundle.Resources))
      "base" (Mem.ascii Mem.configMapText) = Except.ok Mem.exampleFS :=
  ⟨rfl, ((C9_toFilesystem_ignores_empty_names Mem.env
      (Manifest.mk (BundleResource.mk "" "@@" "base64" :: Mem.exampleBundle.Resources))
      "base" (Mem.ascii Mem.configMapText)).1).trans rfl⟩

/-- C2: on a filesystem where a successful write is read back, and with a
codec whose parse of a serialized document gives back the `resources`
sequence of strings that was serialized, applying `modifyKustomize` twice
leaves the workspace that one application leaves, so the declaration has the
same resources sequence; the second application of a successful first one
succeeds and writes nothing. -/
theorem C2_modifyKustomize_idempotent (env : Env FS O R Rs) (dir : String) (f : FS)
    (hRW : ∀ (g g1 : FS) (path : String) (b : Bytes),
      env.WriteFile g path b = Except.ok g1 → env.ReadFile g1 path = Except.ok b)
    (hRT : ∀ (d d2 : Doc) (l : List String) (b : Bytes),
      d.get "resources" = Value.stringSlice l → env.Marshal d = Except.ok b →
      env.Unmarshal b = Except.ok d2 →
      convert.ToStringSlice env.ToString (d2.get "resources") = l) :
    patchOnce env dir (patchOnce env dir f) = patchOnce env dir f ∧
    declaredResources env dir (patchOnce env dir (patchOnce env dir f))
      = declaredResources env dir (patchOnce env dir f) ∧
    (∀ f1 : FS, modifyKustomize env f dir = Except.ok f1 →
      modifyKustomize env f1 dir = Except.ok f1) := by
  have hStable := modifyKustomize_stable env dir hRW hRT
  have hTwice : patchOnce env dir (patchOnce env dir f) = patchOnce env dir f := by
    cases h : modifyKustomize env f dir with
    | error err => simp only [patchOnce, h]
    | ok f1 =>
      have h1 := hStable f f1 h
      simp only [patchOnce, h, h1]
  exact ⟨hTwice, by rw [hTwice], fun f1 h => hStable f f1 h⟩

/-- C2, on the example scenario: one application lists the generated
manifest first, a second one changes nothing. -/
theorem C2_modifyKustomize_idempotent_witness :
    patchOnce Mem.env "base" Mem.exampleFS = Mem.patchedFS ∧
    patchOnce Mem.env "base" (patchOnce Mem.env "base" Mem.exampleFS)
      = patchOnce Mem.env "base" Mem.exampleFS ∧
    declaredResources Mem.env "base" (patchOnce Mem.env "base" Mem.exampleFS)
      = some ["fleet-manifests.yaml", "deployment.yaml"] :=
  ⟨rfl, (C2_modifyKustomize_idempotent Mem.env "base" Mem.exampleFS
      Mem.read_after_add Mem.codec_roundtrip).1, rfl⟩

/-- C4, as stated, fails: with the target directory `base`, the workspace
file `fleet-manifests.yaml` of a bundle record of that name holds the
record's decoded content, not `manifestBytes`, which is at
`base/fleet-manifests.yaml`. -/
theorem C4_counterexample :
    toFilesystem Mem.env Mem.shadowBundle "base" (Mem.ascii Mem.configMapText)
      = Except.ok [("fleet-manifests.yaml", Mem.ascii Mem.deploymentText),
          ("base/fleet-manifests.yaml", Mem.ascii Mem.configMapText)] ∧
    Mem.env.ReadFile [("fleet-manifests.yaml", Mem.ascii Mem.deploymentText),
          ("base/fleet-manifests.yaml", Mem.ascii Mem.configMapText)] "fleet-manifests.yaml"
      = Except.ok (Mem.ascii Mem.deploymentText) ∧
    Mem.ascii Mem.deploymentText ≠ Mem.ascii Mem.configMapText :=
  ⟨rfl, rfl, by decide⟩

/-- C4, amended: on a filesystem where a successful add is read back, when
`toFilesystem` succeeds the workspace file at `join(dir, "fleet-manifests.yaml")`
holds exactly `manifestBytes`; so does the file of every bundle record named
by that joined path, which is `fleet-manifests.yaml` when `dir` is empty or
`.`. -/
theorem C4_toFilesystem_manifest_wins (env : Env FS O R Rs) (m : Manifest) (dir : String)
    (manifestBytes : Bytes) (fs : FS)
    (hRW : ∀ (g g1 : FS) (path : String) (b : Bytes),
      env.AddFile g path b = Except.ok g1 → env.ReadFile g1 path = Except.ok b)
    (hBuilt : toFilesystem env m dir manifestBytes = Except.ok fs) :
    env.ReadFile fs (filepath.Join dir ManifestsYAML) = Except.ok manifestBytes ∧
    (∀ r ∈ m.Resources, r.Name = filepath.Join dir ManifestsYAML →
      env.ReadFile fs r.Name = Except.ok manifestBytes) ∧
    filepath.Join "" ManifestsYAML = "fleet-manifests.yaml" ∧
    filepath.Join "." ManifestsYAML = "fleet-manifests.yaml" := by
  have hFile : env.ReadFile fs (filepath.Join dir ManifestsYAML) = Except.ok manifestBytes := by
    unfold toFilesystem at hBuilt
    cases hLoop : toFilesystem.loop env env.MakeEmptyDirInMemory m.Resources with
    | error err => rw [hLoop] at hBuilt; cases hBuilt
    | ok g =>
      rw [hLoop] at hBuilt
      exact hRW g fs _ manifestBytes hBuilt
  exact ⟨hFile, fun r _ hr => by rw [hr]; exact hFile, by decide, by decide⟩

/-- C4, amended, on a bundle record named `fleet-manifests.yaml` and the
target directory `.`: the file holds `manifestBytes`. -/
theorem C4_toFilesystem_manifest_wins_witness :
    toFilesystem Mem.env Mem.shadowBundle "." (Mem.ascii Mem.configMapText)
      = Except.ok [("fleet-manifests.yaml", Mem.ascii Mem.configMapText)] ∧
    Mem.env.ReadFile [("fleet-manifests.yaml", Mem.ascii Mem.configMapText)]
      "fleet-manifests.yaml" = Except.ok (Mem.ascii Mem.configMapText) :=
  ⟨rfl, ((C4_toFilesystem_manifest_wins Mem.env Mem.shadowBundle "."
      (Mem.ascii Mem.configMapText) [("fleet-manifests.yaml", Mem.ascii Mem.configMapText)]
      Mem.read_after_add rfl).2.1
        (BundleResource.mk "fleet-manifests.yaml" Mem.deploymentText "")
        (List.mem_singleton.2 rfl) rfl)⟩

/-- C8, as stated, fails: the flag list of the empty string is the one empty
flag, two spaces in a row give an empty flag between them, and a tab does
not separate; the white-space split of the specification gives other lists. -/
theorem C8_counterexample :
    (kustomize.buildOpts "" = [""] ∧ whitespaceFields "" = []) ∧
    (kustomize.buildOpts "a  b" = ["a", "", "b"] ∧ whitespaceFields "a  b" = ["a", "b"]) ∧
    (kustomize.buildOpts "a\tb" = ["a\tb"] ∧ whitespaceFields "a\tb" = ["a", "b"]) ∧
    kustomize.buildOpts "a  b" ≠ whitespaceFields "a  b" := by
  decide

/-- C8, amended: the flag list is the build-options string cut at every
single space character: joining the flags with one space gives the string
back, no flag holds a space, and there is one flag more than there are
spaces (so the list is never empty, and flags may be empty). -/
theorem C8_buildOpts_splits_at_spaces (buildOptions : String) :
    String.intercalate " " (kustomize.buildOpts buildOptions) = buildOptions ∧
    (∀ flag ∈ kustomize.buildOpts buildOptions, ' ' ∉ flag.data) ∧
    (kustomize.buildOpts buildOptions).length = buildOptions.data.count ' ' + 1 := by
  refine ⟨?_, ?_, ?_⟩
  · apply String.ext
    have h := splitAux_intercalate ' ' buildOptions.data []
    simpa [kustomize.buildOpts, strings.Split] using h
  · intro flag hflag
    simp only [kustomize.buildOpts, strings.Split, List.mem_map] at hflag
    obtain ⟨x, hx, rfl⟩ := hflag
    exact splitAux_no_sep ' ' buildOptions.data [] (by simp) x hx
  · simp [kustomize.buildOpts, strings.Split, splitAux_length]

end Claims

end Fleet
